import Mathlib

/-!
Verification of the command-line splitting and conditional-execution engine
of vifm's `src/cmd_core.c` (quoting classifier, sub-command splitter,
conditional gate, batch executor, range selection, argument-list evaluator).

The C code is embedded shallowly: strings become `List Char` (the embedding
carries no NUL terminator; "end of string" is the empty list), the in-place
two-cursor buffer rewriting of `break_cmdline` becomes explicit functional
state (`cur` = processed content of the current sub-command, `gap` = buffer
content between the processed and raw cursors, `rest` = unread original
content), and external collaborators (the command registry, the expression
parser) become function parameters.  Utility functions of the repository
that are not part of the provided sources (`int_stack_*`, `until_first`,
`skip_whitespace`, `is_parent_dir`, `clean_selected_files`) are modelled
from the specification; each such definition is marked in its doc comment.
-/

/-- Command identifiers resolved by the external command registry
(`get_cmd_id`).  Only the identifiers that `cmd_core.c` compares against
are named; `other n` stands for any remaining command id. -/
inductive CmdId where
  | COM_IF_STMT
  | COM_ELSEIF_STMT
  | COM_ELSE_STMT
  | COM_ENDIF_STMT
  | COM_FIND
  | COM_GREP
  | COM_GOTO
  | other (n : Nat)
deriving DecidableEq, Repr

/-- Values for the `if_levels` stack (enum `IfFrame` in `cmd_core.c`). -/
inductive IfFrame where
  | IF_SCOPE_GUARD
  | IF_BEFORE_MATCH
  | IF_MATCH
  | IF_AFTER_MATCH
  | IF_ELSE
  | IF_FINISH
deriving DecidableEq, Repr

/-- Internal scanning states of `line_pos`
(`enum { BEGIN, NO_QUOTING, S_QUOTING, D_QUOTING, R_QUOTING }`). -/
inductive LPState where
  | BEGIN
  | NO_QUOTING
  | S_QUOTING
  | D_QUOTING
  | R_QUOTING
deriving DecidableEq, Repr

/-- The scanning loop of `line_pos` (`cmd_core.c:687-754`).  Walks the
characters between `begin` and `end`, updating the state and the separator
count.  `none` models the early `return 1` taken when a backslash is the
last scanned character in an escape-consuming state. -/
def lp_scan (sep : Char) (rquoting : Bool) :
    LPState → Nat → List Char → Option (LPState × Nat)
  | st, count, [] => some (st, count)
  | st, count, c :: rest =>
    match st with
    | .BEGIN =>
      if sep = ' ' ∧ c = '\'' then lp_scan sep rquoting .S_QUOTING count rest
      else if sep = ' ' ∧ c = '"' then lp_scan sep rquoting .D_QUOTING count rest
      else if sep = ' ' ∧ c = '/' ∧ rquoting then lp_scan sep rquoting .R_QUOTING count rest
      else if c = '&' ∧ rest = [] then lp_scan sep rquoting .BEGIN count rest
      else if c ≠ sep then lp_scan sep rquoting .NO_QUOTING count rest
      else lp_scan sep rquoting .BEGIN count rest
    | .NO_QUOTING =>
      if c = sep then lp_scan sep rquoting .BEGIN (count + 1) rest
      else if c = '\'' then lp_scan sep rquoting .S_QUOTING count rest
      else if c = '"' then lp_scan sep rquoting .D_QUOTING count rest
      else if c = '\\' then
        match rest with
        | [] => none
        | _ :: rest2 => lp_scan sep rquoting .NO_QUOTING count rest2
      else lp_scan sep rquoting .NO_QUOTING count rest
    | .S_QUOTING =>
      if c = '\'' then lp_scan sep rquoting .BEGIN count rest
      else lp_scan sep rquoting .S_QUOTING count rest
    | .D_QUOTING =>
      if c = '"' then lp_scan sep rquoting .BEGIN count rest
      else if c = '\\' then
        match rest with
        | [] => none
        | _ :: rest2 => lp_scan sep rquoting .D_QUOTING count rest2
      else lp_scan sep rquoting .D_QUOTING count rest
    | .R_QUOTING =>
      if c = '/' then lp_scan sep rquoting .BEGIN count rest
      else if c = '\\' then
        match rest with
        | [] => none
        | _ :: rest2 => lp_scan sep rquoting .R_QUOTING count rest2
      else lp_scan sep rquoting .R_QUOTING count rest

/-- `line_pos(begin, end, sep, rquoting)` (`cmd_core.c:678-785`).  `chars`
is the scanned range `[begin, end)`; `endc` is the character at `end`
(`none` when `end` sits on the terminating NUL), read by the final
`*end != sep` test.  Returns the same small-integer classification codes
as the C function (0 out of argument, 1 escaped-at-end, 2 inside an
argument, 3/4/5 inside single/double/regex quoting). -/
def line_pos (chars : List Char) (endc : Option Char) (sep : Char)
    (rquoting : Bool) : Nat :=
  match lp_scan sep rquoting .BEGIN 0 chars with
  | none => 1
  | some (st, count) =>
    match st with
    | .NO_QUOTING =>
      if sep = ' ' then (if count > 0 then 2 else 0)
      else if count > 0 ∧ count < 3 then 2
      else 0
    | .S_QUOTING => 3
    | .D_QUOTING => 4
    | .R_QUOTING => 5
    | .BEGIN =>
      if sep ≠ ' ' ∧ count > 0 ∧ (match endc with
          | none => true
          | some e => decide (e ≠ sep)) = true then 2
      else 0

/-- `CmdLineLocation` (`cmd_core.h`), the public classification returned by
`get_cmdline_location` (`cmd_core.c:927-967`). -/
inductive CmdLineLocation where
  | CLL_OUT_OF_ARG
  | CLL_NO_QUOTING
  | CLL_S_QUOTING
  | CLL_D_QUOTING
  | CLL_R_QUOTING
deriving DecidableEq, Repr

/-- The mapping from `line_pos` return codes to `CmdLineLocation`
(`cmd_core.c:954-966`). -/
def cll_of_code (code : Nat) : CmdLineLocation :=
  match code with
  | 0 => .CLL_OUT_OF_ARG
  | 1 => .CLL_NO_QUOTING
  | 2 => .CLL_NO_QUOTING
  | 3 => .CLL_S_QUOTING
  | 4 => .CLL_D_QUOTING
  | 5 => .CLL_R_QUOTING
  | _ => .CLL_NO_QUOTING

/-- The if-stack.  `int_stack_t` holding `IfFrame` values; the head of the
list is the top of the stack.  Modelled from the spec: the stack container
itself (`utils/int_stack.c`) is not among the provided sources; the spec
describes it as plain stack discipline (push/peek/pop/replace-top). -/
abbrev IfStack := List IfFrame

/-- Modelled from the spec: `int_stack_top_is` — the stack is non-empty and
its top equals `v`. -/
def int_stack_top_is (s : IfStack) (v : IfFrame) : Bool :=
  match s with
  | [] => false
  | top :: _ => top = v

/-- Modelled from the spec: `int_stack_pop_seq(stack, seq_guard)` pops
frames until the sentinel `seq_guard` is found and pops the sentinel as
well, so an errored scope is fully unwound ("force-pop frames down to the
guard"; the stack must be balanced again afterwards). -/
def int_stack_pop_seq (s : IfStack) (seq_guard : IfFrame) : IfStack :=
  (s.dropWhile (fun f => f ≠ seq_guard)).tail

/-- `is_at_scope_bottom` (`cmd_core.c:1227-1232`): the stack is empty or a
scope guard is on top. -/
def is_at_scope_bottom (scope_stack : IfStack) : Bool :=
  scope_stack.isEmpty || int_stack_top_is scope_stack .IF_SCOPE_GUARD

/-- `cmd_should_be_processed` (`cmd_core.c:631-669`).  The C function keeps
the nested-skip counter in a function-local `static int`; here the counter
is passed in and the (possibly updated) counter is returned alongside the
decision. -/
def cmd_should_be_processed (cmd_id : CmdId) (if_levels : IfStack)
    (skipped_nested_if_stmts : Nat) : Bool × Nat :=
  if is_at_scope_bottom if_levels ∨ int_stack_top_is if_levels .IF_MATCH
      ∨ int_stack_top_is if_levels .IF_ELSE then
    (true, skipped_nested_if_stmts)
  else if cmd_id = .COM_IF_STMT then
    (false, skipped_nested_if_stmts + 1)
  else if cmd_id = .COM_ELSEIF_STMT then
    (skipped_nested_if_stmts = 0, skipped_nested_if_stmts)
  else if cmd_id = .COM_ELSE_STMT ∨ cmd_id = .COM_ENDIF_STMT then
    if skipped_nested_if_stmts > 0 then
      (false, if cmd_id = .COM_ENDIF_STMT then skipped_nested_if_stmts - 1
              else skipped_nested_if_stmts)
    else
      (true, skipped_nested_if_stmts)
  else
    (false, skipped_nested_if_stmts)

/-- `commands_scope_start` (`cmd_core.c:1141-1145`): push a scope guard. -/
def commands_scope_start (if_levels : IfStack) : IfStack :=
  .IF_SCOPE_GUARD :: if_levels

/-- `commands_scope_finish` (`cmd_core.c:1147-1159`).  Returns the C return
value (1 = error with the "Missing :endif" message, 0 = ok) together with
the resulting stack. -/
def commands_scope_finish (if_levels : IfStack) : Nat × IfStack :=
  if ¬ is_at_scope_bottom if_levels then
    (1, int_stack_pop_seq if_levels .IF_SCOPE_GUARD)
  else
    (0, if_levels.tail)

/-- `cmds_scoped_if` (`cmd_core.c:1161-1166`): push `IF_MATCH` when the
condition holds, `IF_BEFORE_MATCH` otherwise.  (The call to
`cmds_preserve_selection` touches only the separate selection flag and is
not part of the stack state.) -/
def cmds_scoped_if (cond : Bool) (if_levels : IfStack) : IfStack :=
  (if cond then IfFrame.IF_MATCH else IfFrame.IF_BEFORE_MATCH) :: if_levels

/-- `cmds_scoped_elseif` (`cmd_core.c:1168-1189`).  Returns the C return
value (1 = error, 0 = ok) and the resulting stack. -/
def cmds_scoped_elseif (cond : Bool) (if_levels : IfStack) : Nat × IfStack :=
  if is_at_scope_bottom if_levels then
    (1, if_levels)
  else
    match if_levels with
    | [] => (1, if_levels)
    | if_frame :: below =>
      if if_frame = .IF_ELSE ∨ if_frame = .IF_FINISH then
        (1, if_levels)
      else
        (0, (if if_frame = .IF_BEFORE_MATCH then
               (if cond then IfFrame.IF_MATCH else IfFrame.IF_BEFORE_MATCH)
             else IfFrame.IF_AFTER_MATCH) :: below)

/-- `cmds_scoped_else` (`cmd_core.c:1191-1211`). -/
def cmds_scoped_else (if_levels : IfStack) : Nat × IfStack :=
  if is_at_scope_bottom if_levels then
    (1, if_levels)
  else
    match if_levels with
    | [] => (1, if_levels)
    | if_frame :: below =>
      if if_frame = .IF_ELSE ∨ if_frame = .IF_FINISH then
        (1, if_levels)
      else
        (0, (if if_frame = .IF_BEFORE_MATCH then IfFrame.IF_ELSE
             else IfFrame.IF_FINISH) :: below)

/-- `cmds_scoped_endif` (`cmd_core.c:1213-1223`). -/
def cmds_scoped_endif (if_levels : IfStack) : Nat × IfStack :=
  if is_at_scope_bottom if_levels then
    (1, if_levels)
  else
    (0, if_levels.tail)

/-- `CmdArgsType` (`cmd_core.c:77-84`). -/
inductive CmdArgsType where
  | CAT_REGULAR
  | CAT_EXPR
  | CAT_UNTIL_THE_END
deriving DecidableEq, Repr

/-- The external collaborators `break_cmdline` consults through the cmds
engine: `get_cmd_args_type` (registry lookup of the command found at the
given text, `cmd_core.c:971-1005`) and the separator / regex-quoting
choice of `get_cmdline_location`'s `get_cmd_info` switch
(`cmd_core.c:936-952`).  All three are functions of the text starting at
the current command. -/
structure CmdsModel where
  argsTypeOf : List Char → CmdArgsType
  sepOf : List Char → Char
  rquotingOf : List Char → Bool

/-- `isspace` of the C locale, as used by `skip_to_cmd_name`. -/
def is_space_ch (c : Char) : Bool :=
  c = ' ' ∨ c = '\t' ∨ c = '\n' ∨ c = '\x0b' ∨ c = '\x0c' ∨ c = '\r'

/-- `skip_to_cmd_name` (`cmd_core.c:1056-1064`): skip whitespace and colon
characters. -/
def skip_to_cmd_name (cmd : List Char) : List Char :=
  cmd.dropWhile (fun c => is_space_ch c ∨ c = ':')

/-- Modelled from the spec: `until_first` (`utils/str.c`, not among the
provided sources) — "consuming parts of the string after || until end of
the string or | is found": returns the prefix before the first occurrence
of `c` and the suffix starting at that occurrence (empty if absent). -/
def until_first (s : List Char) (c : Char) : List Char × List Char :=
  (s.takeWhile (fun x => x ≠ c), s.dropWhile (fun x => x ≠ c))

/-- `get_cmdline_location` (`cmd_core.c:927-967`) for position `pos` inside
command text `cmd`: `pre` is the content of `[cmd, pos)`, `endc` the
character at `pos` (`none` on the terminating NUL). -/
def get_cmdline_location (M : CmdsModel) (cmd pre : List Char)
    (endc : Option Char) : CmdLineLocation :=
  cll_of_code (line_pos pre endc (M.sepOf cmd) (M.rquotingOf cmd))

/-- `is_out_of_arg` (`cmd_core.c:921-925`). -/
def is_out_of_arg (M : CmdsModel) (cmd pre : List Char)
    (endc : Option Char) : Bool :=
  get_cmdline_location M cmd pre endc = .CLL_OUT_OF_ARG

/-- The `CAT_EXPR` look-ahead loop of `break_cmdline`
(`cmd_core.c:879-889`): while the processed cursor sees `||` not followed
by a third `|`, consume up to the next `|` (or the end).  `cur` is the
content between the start of the current sub-command and the processed
cursor, `s` the buffer content from the processed cursor on; both are
returned updated.  `fuel` only bounds the recursion (each iteration
consumes at least two characters of `s`). -/
def expr_lookahead : Nat → List Char → List Char → List Char × List Char
  | 0, cur, s => (cur, s)
  | fuel + 1, cur, s =>
    if s.head? = some '|' ∧ s.tail.head? = some '|'
        ∧ s.tail.tail.head? ≠ some '|' then
      let ssplit := until_first s.tail.tail '|'
      expr_lookahead fuel (cur ++ '|' :: '|' :: ssplit.1) ssplit.2
    else (cur, s)

/-- The main loop of `break_cmdline` (`cmd_core.c:850-911`), in functional
form.  The C version rewrites the copied buffer in place through two
cursors; here `cur` is the processed content of the current sub-command
(`[cmdline, processed)`), `gap` the buffer content between the processed
and raw cursors (`[processed, raw)`, non-empty only after a `\|` collapse),
and `rest` the unscanned original text (from `raw`).  `acc` accumulates
the emitted sub-commands.  `fuel` bounds the recursion; every recursive
call consumes at least one character of `rest`, so the initial fuel of
`length + 1` is never exhausted.  (For a lone backslash at the very end of
a `CAT_REGULAR` command the C code copies the NUL terminator and scans on
past the end of the buffer; the model idealizes the buffer as NUL-padded
there, so the backslash is kept and the sub-command ends.) -/
def brk_loop (M : CmdsModel) :
    Nat → CmdArgsType → List Char → List Char → List Char →
    List (List Char) → List (List Char)
  | 0, _, _, _, _, acc => acc
  | fuel + 1, args_kind, cur, gap, rest, acc =>
    if args_kind = .CAT_REGULAR ∧ rest.head? = some '\\' then
      if rest.tail.head? = some '|' then
        brk_loop M fuel args_kind (cur ++ ['|'])
          ((gap ++ ['\\', '|']).drop 1) rest.tail.tail acc
      else if rest.tail = [] then
        brk_loop M fuel args_kind (cur ++ ['\\']) [] [] acc
      else
        brk_loop M fuel args_kind (cur ++ '\\' :: rest.tail.take 1)
          ((gap ++ '\\' :: rest.tail.take 1).drop 2) rest.tail.tail acc
    else if (rest.head? = some '|'
          ∧ is_out_of_arg M (cur ++ gap ++ rest) cur ((gap ++ rest).head?))
        ∨ rest = [] then
      if args_kind = .CAT_UNTIL_THE_END then
        if rest = [] then acc ++ [cur] else acc ++ [cur ++ gap ++ rest]
      else
        let stepped : List Char × List Char :=
          if rest = [] then (cur, [])
          else if args_kind = .CAT_EXPR then
            let s0 := gap ++ '|' :: rest.tail
            let la := expr_lookahead (s0.length + 1) cur s0
            (la.1, la.2.tail)
          else (cur, rest.tail)
        let acc2 := acc ++ [stepped.1]
        let rest2 := skip_to_cmd_name stepped.2
        if rest2 = [] then acc2
        else brk_loop M fuel (M.argsTypeOf rest2) [] [] rest2 acc2
    else
      if rest = [] then acc
      else
        brk_loop M fuel args_kind (cur ++ rest.take 1)
          ((gap ++ rest.take 1).drop 1) rest.tail acc

/-- `break_cmdline` (`cmd_core.c:811-916`).  An empty line yields the
one-element list containing the empty string; a line that is only
whitespace/colons yields the empty list (the C loop body never runs and
only the NULL terminator is stored).  The C `for_menu` flag only decides
whether the engine context is re-initialized before the registry is
consulted and has no algorithmic effect here, the registry being the
`CmdsModel` parameter. -/
def break_cmdline (M : CmdsModel) (cmdline : List Char) : List (List Char) :=
  if cmdline = [] then [[]]
  else
    let start := skip_to_cmd_name cmdline
    if start = [] then []
    else brk_loop M (cmdline.length + 1) (M.argsTypeOf start) [] [] start []

/-- The body of the `while` loop of `exec_commands` (`cmd_core.c:793-803`):
run each sub-command in turn; a non-zero status overwrites the running
`save_msg` with its sign normalization.  `exec` abstracts `exec_command`
(whose dispatch targets are external collaborators). -/
def exec_commands_loop (exec : List Char → Int) :
    List (List Char) → Int → Int
  | [], save_msg => save_msg
  | cmd :: cmds, save_msg =>
    let ret := exec cmd
    exec_commands_loop exec cmds (if ret ≠ 0 then (if ret < 0 then -1 else 1) else save_msg)

/-- `exec_commands` (`cmd_core.c:787-807`): split the line, execute every
sub-command in order, return the aggregated `save_msg` status. -/
def exec_commands (M : CmdsModel) (exec : List Char → Int)
    (cmdline : List Char) : Int :=
  exec_commands_loop exec (break_cmdline M cmdline) 0

/-- One row of the file list (`dir_entry_t`), with the fields `select_range`
touches. -/
structure dir_entry_t where
  name : List Char
  selected : Bool
deriving DecidableEq, Repr

/-- The view state used by `select_range`: the row list (`dir_entry` with
`list_rows = dir_entry.length`), the cursor (`list_pos`), the selection
counter and the user-selection flag (a C int, 0 = not user-originated). -/
structure FileView where
  dir_entry : List dir_entry_t
  list_pos : Nat
  selected_files : Nat
  user_selection : Nat
deriving DecidableEq, Repr

/-- The `begin`/`end` range of `cmd_info_t` (engine/cmds.h); -1 means "not
given". -/
structure cmd_info_t where
  begin : Int
  «end» : Int
deriving DecidableEq, Repr

/-- Modelled from the spec: `is_parent_dir` (`utils/path.c`, not among the
provided sources) recognizes the parent-directory pseudo-entry `..`. -/
def is_parent_dir (path : List Char) : Bool :=
  path = "..".toList

/-- Modelled from the spec: `clean_selected_files` (`filelist.c`, not among
the provided sources) clears the selection: deselects every row and zeroes
the selection counter. -/
def clean_selected_files (view : FileView) : FileView :=
  { view with
    dir_entry := view.dir_entry.map (fun e => { e with selected := false }),
    selected_files := 0 }

/-- The final step of `select_range` (`cmd_core.c:433-434`): a non-empty
selection is marked as not user-originated. -/
def select_range_mark (view : FileView) : FileView :=
  if view.selected_files > 0 then { view with user_selection := 0 } else view

/-- `select_range` (`cmd_core.c:373-435`).  The C loops write
`dir_entry[x]` for `x` in the requested range without bounds checks; the
embedding selects the rows of the list that fall in the range (identical
behaviour whenever the range lies within `[0, list_rows)`, which the C
code relies on). -/
def select_range (id : CmdId) (cmd_info : cmd_info_t) (curr_view : FileView) :
    FileView :=
  if cmd_info.begin > -1 then
    let v1 := clean_selected_files curr_view
    let entries := v1.dir_entry.mapIdx (fun x e =>
      if cmd_info.begin ≤ (x : Int) ∧ (x : Int) ≤ cmd_info.«end»
          ∧ ¬(is_parent_dir e.name ∧ cmd_info.begin ≠ cmd_info.«end») then
        { e with selected := true }
      else e)
    select_range_mark { v1 with
      dir_entry := entries,
      selected_files := entries.countP (fun e => e.selected) }
  else if curr_view.selected_files = 0 then
    if cmd_info.«end» > -1 then
      let v1 := clean_selected_files curr_view
      let entries := v1.dir_entry.mapIdx (fun x e =>
        if (x : Int) = cmd_info.«end» then { e with selected := true } else e)
      select_range_mark { v1 with
        dir_entry := entries,
        selected_files :=
          if cmd_info.«end» < (v1.dir_entry.length : Int) then 1 else 0 }
    else if id ≠ .COM_FIND ∧ id ≠ .COM_GREP then
      let v1 := clean_selected_files curr_view
      let entries := v1.dir_entry.mapIdx (fun x e =>
        if x = curr_view.list_pos then { e with selected := true } else e)
      select_range_mark { v1 with
        dir_entry := entries,
        selected_files := if curr_view.list_pos < v1.dir_entry.length then 1 else 0 }
    else
      select_range_mark curr_view
  else
    curr_view

/-- Outcome of one `parse` call as `eval_arglist` distinguishes them
(`cmd_core.c:1248-1259`): `ok` is `PE_NO_ERROR` (string form of the value,
and `get_last_position`), `invalidWs` is `PE_INVALID_EXPRESSION` with
`is_prev_token_whitespace()` (string form of `get_parsing_result`, and
`get_last_parsed_char`), `err` is any other parser failure.  The parser
itself (`engine/parsing.c`) is an external collaborator and is abstracted
as a function of the remaining text. -/
inductive ParseOutcome where
  | ok (str rest : List Char)
  | invalidWs (str rest : List Char)
  | err
deriving DecidableEq, Repr

/-- Modelled from the spec: `skip_whitespace` (`utils/str.c`, not among the
provided sources) skips leading whitespace. -/
def skip_whitespace (s : List Char) : List Char :=
  s.dropWhile is_space_ch

/-- The accumulator update of `eval_arglist` (`cmd_core.c:1267-1271`):
append a single space separator when the accumulator is neither NULL nor
empty, then the new string form.  `none` models the NULL pointer. -/
def extend_eval_result (acc : Option (List Char)) (str : List Char) :
    List Char :=
  (if acc.getD [] ≠ [] then acc.getD [] ++ [' '] else acc.getD []) ++ str

/-- The loop of `eval_arglist` (`cmd_core.c:1242-1288`).  `.error stop`
models the failure return (NULL result with `*stop_ptr = args`); on
success the accumulated string (still `none` = NULL if nothing was ever
appended) is returned.  `fuel` bounds the recursion; when the parser
consumes at least one character per step, `length + 1` is never
exhausted. -/
def eval_arglist_loop (p : List Char → ParseOutcome) :
    Nat → List Char → Option (List Char) →
    Except (List Char) (Option (List Char))
  | 0, args, _ => .error args
  | fuel + 1, args, acc =>
    if args = [] then .ok acc
    else
      match p args with
      | .err => .error args
      | .ok str rest =>
        eval_arglist_loop p fuel (skip_whitespace rest)
          (some (extend_eval_result acc str))
      | .invalidWs str rest =>
        eval_arglist_loop p fuel (skip_whitespace rest)
          (some (extend_eval_result acc str))

/-- `eval_arglist` (`cmd_core.c:1234-1288`). -/
def eval_arglist (p : List Char → ParseOutcome) (args : List Char) :
    Except (List Char) (Option (List Char)) :=
  eval_arglist_loop p (args.length + 1) args none

/-- Spec-side counterpart of `eval_arglist` for the refinement claim,
following the specification's words: collect the successive evaluated
expressions' string forms (resuming after skipping whitespace), stopping
with success when the text is exhausted or with the stopping position when
the parser fails outright. -/
def eval_arglist_spec (p : List Char → ParseOutcome) :
    Nat → List Char → Except (List Char) (List (List Char))
  | 0, args => .error args
  | fuel + 1, args =>
    if args = [] then .ok []
    else
      match p args with
      | .err => .error args
      | .ok str rest =>
        (eval_arglist_spec p fuel (skip_whitespace rest)).map (str :: ·)
      | .invalidWs str rest =>
        (eval_arglist_spec p fuel (skip_whitespace rest)).map (str :: ·)

/-- Spec-side "joined by exactly one space" of the successive string
forms. -/
def join_spaced : List (List Char) → List Char
  | [] => []
  | [x] => x
  | x :: y :: xs => x ++ ' ' :: join_spaced (y :: xs)

/-- Registry instantiation in which every command is of `CAT_REGULAR`
category with the default whitespace separator and no regex quoting
(`get_cmd_args_type`'s default branch for commands that do not accept
expressions, `get_cmdline_location`'s default branch). -/
def regularModel : CmdsModel :=
  { argsTypeOf := fun _ => .CAT_REGULAR,
    sepOf := fun _ => ' ',
    rquotingOf := fun _ => false }

/-- Registry instantiation in which a command whose text starts with
`echo` is of `CAT_EXPR` category (as `COM_ECHO` is, via
`command_accepts_expr`) and every other command is `CAT_REGULAR`; default
separator, no regex quoting. -/
def echoModel : CmdsModel :=
  { argsTypeOf := fun s =>
      if s.take 4 = "echo".toList then .CAT_EXPR else .CAT_REGULAR,
    sepOf := fun _ => ' ',
    rquotingOf := fun _ => false }

/-- A concrete `exec_command` outcome assignment: sub-command `a` fails
(negative status), sub-command `b` succeeds with a message to show
(positive status), everything else is silent. -/
def exec_status_model (cmd : List Char) : Int :=
  if cmd = "a".toList then -1 else if cmd = "b".toList then 3 else 0

/-- The aggregate `save_msg` value `exec_commands` actually computes: the
sign normalization of the last non-zero per-sub-command status (0 when
every status is 0). -/
def agg_save_msg (statuses : List Int) : Int :=
  match (statuses.filter (fun v => v ≠ 0)).getLast? with
  | none => 0
  | some v => if v < 0 then -1 else 1

/-- A concrete expression parser for the `eval_arglist` witness: a
non-empty run of digits is a self-evaluating expression; anything else is
a parse error. -/
def digit_parse (s : List Char) : ParseOutcome :=
  let tok := s.takeWhile (fun c => c.isDigit)
  if tok = [] then .err else .ok tok (s.drop tok.length)

/-- A concrete view for the `select_range` counterexample: one regular
row, already selected by the user. -/
def view_user_selected : FileView :=
  { dir_entry := [{ name := "f".toList, selected := true }],
    list_pos := 0,
    selected_files := 1,
    user_selection := 1 }

/-- A concrete two-row view (parent pseudo-entry and one file) with
nothing selected. -/
def view_unselected : FileView :=
  { dir_entry := [{ name := "..".toList, selected := false },
                  { name := "f".toList, selected := false }],
    list_pos := 1,
    selected_files := 0,
    user_selection := 1 }

/-- Counterexample to claim C6 as stated: a single quote is a
non-separator character immediately preceding end-of-string encountered in
the Unquoted-Before-Token state, yet it transitions into the single-quoted
state, not into Unquoted-In-Token (and `line_pos` accordingly classifies
the position as inside single quoting, code 3, where an in-token first
word would give code 0). -/
theorem C6_counterexample :
    lp_scan ' ' false .BEGIN 0 ['\''] ≠ some (.NO_QUOTING, 0) ∧
    lp_scan ' ' false .BEGIN 0 ['\''] = some (.S_QUOTING, 0) ∧
    line_pos ['\''] none ' ' false = 3 ∧
    line_pos ['x'] none ' ' false = 0 := by
  decide

/-- Claim C6 (amended): with whitespace separator, an unescaped `&`
immediately preceding end-of-string in the Unquoted-Before-Token state is
a no-op (the state stays Unquoted-Before-Token), whereas any other
character that is neither the separator nor a quote-opening character
(single quote, double quote, or slash when regex quoting is enabled) —
including `&` itself when not at end-of-string — transitions into
Unquoted-In-Token. -/
theorem C6_theorem (rquoting : Bool) (count : Nat) (c : Char)
    (hsep : c ≠ ' ') (hq1 : c ≠ '\'') (hq2 : c ≠ '"')
    (hq3 : c = '/' → rquoting = false) (hamp : c ≠ '&') :
    lp_scan ' ' rquoting .BEGIN count ['&'] = some (.BEGIN, count) ∧
    (∀ rest : List Char,
      lp_scan ' ' rquoting .BEGIN count (c :: rest)
        = lp_scan ' ' rquoting .NO_QUOTING count rest) ∧
    (∀ (d : Char) (rest : List Char),
      lp_scan ' ' rquoting .BEGIN count ('&' :: d :: rest)
        = lp_scan ' ' rquoting .NO_QUOTING count (d :: rest)) := by
  refine ⟨by simp [lp_scan], fun rest => ?_, fun d rest => by simp [lp_scan]⟩
  by_cases hc : c = '/'
  · subst hc
    simp [lp_scan, hq3 rfl]
  · simp [lp_scan, hsep, hq1, hq2, hamp, hc]

/-- Witness for C6_theorem at `c = 'x'`, `rquoting = false`. -/
theorem C6_witness :
    lp_scan ' ' false .BEGIN 0 ['&'] = some (.BEGIN, 0) ∧
    lp_scan ' ' false .BEGIN 0 ['x'] = lp_scan ' ' false .NO_QUOTING 0 [] := by
  have h := C6_theorem false 0 'x' (by decide) (by decide) (by decide)
    (by intro h; cases h) (by decide)
  exact ⟨h.1, h.2.1 []⟩

/-- Claim C10: inside the single-quoted state a backslash is an ordinary
character (consumed on its own, never together with the following
character, and a trailing backslash inside single quotes does not produce
the early escape classification), the next single quote always returns the
scan to the unquoted state, and two-character escape consumption (with the
early escape classification on a trailing backslash) happens exactly in
the unquoted-in-token, double-quoted and regex-quoted states. -/
theorem C10_theorem (sep : Char) (rquoting : Bool) (count : Nat)
    (hsep : sep ≠ '\\') :
    (∀ rest : List Char,
      lp_scan sep rquoting .S_QUOTING count ('\\' :: rest)
        = lp_scan sep rquoting .S_QUOTING count rest) ∧
    lp_scan sep rquoting .S_QUOTING count ['\\'] = some (.S_QUOTING, count) ∧
    (∀ rest : List Char,
      lp_scan sep rquoting .S_QUOTING count ('\'' :: rest)
        = lp_scan sep rquoting .BEGIN count rest) ∧
    (∀ (c : Char) (rest : List Char),
      lp_scan sep rquoting .NO_QUOTING count ('\\' :: c :: rest)
        = lp_scan sep rquoting .NO_QUOTING count rest) ∧
    lp_scan sep rquoting .NO_QUOTING count ['\\'] = none ∧
    (∀ (c : Char) (rest : List Char),
      lp_scan sep rquoting .D_QUOTING count ('\\' :: c :: rest)
        = lp_scan sep rquoting .D_QUOTING count rest) ∧
    lp_scan sep rquoting .D_QUOTING count ['\\'] = none ∧
    (∀ (c : Char) (rest : List Char),
      lp_scan sep rquoting .R_QUOTING count ('\\' :: c :: rest)
        = lp_scan sep rquoting .R_QUOTING count rest) ∧
    lp_scan sep rquoting .R_QUOTING count ['\\'] = none := by
  have hsep2 : ('\\' : Char) ≠ sep := Ne.symm hsep
  refine ⟨fun rest => by simp [lp_scan], by simp [lp_scan],
    fun rest => by simp [lp_scan],
    fun c rest => by simp [lp_scan, hsep2], by simp [lp_scan, hsep2],
    fun c rest => by simp [lp_scan], by simp [lp_scan],
    fun c rest => by simp [lp_scan], by simp [lp_scan]⟩

/-- Witness for C10_theorem at `sep = ' '`: a backslash that ends the
scanned range inside single quotes still classifies as single-quoted,
while inside double quotes it takes the escape classification. -/
theorem C10_witness :
    lp_scan ' ' false .S_QUOTING 0 ['\\'] = some (.S_QUOTING, 0) ∧
    lp_scan ' ' false .D_QUOTING 0 ['\\'] = none := by
  have h := C10_theorem ' ' false 0 (by decide)
  exact ⟨h.2.1, h.2.2.2.2.2.2.1⟩

/-- Claim C2: inside a false (suppressed) branch — the if-stack top is
`IF_BEFORE_MATCH`, `IF_AFTER_MATCH` or `IF_FINISH` — the gate suppresses
every ordinary command; a nested `if` increments the private nested-skip
counter and is suppressed; `elseif` passes exactly when the counter is
zero; while the counter is positive `endif` decrements it and is
suppressed (`else` is suppressed without touching it); at counter zero
`else` and `endif` pass.  Moreover, after `ifStart(false)`, a nested
`ifStart(true)` and its `endIf()`, every ordinary command is suppressed
until the outer `endIf()`, which restores the stack to its state before
the first `ifStart`. -/
theorem C2_theorem (s : IfStack) (f : IfFrame) (k : Nat)
    (hd : s.head? = some f)
    (hf : f = .IF_BEFORE_MATCH ∨ f = .IF_AFTER_MATCH ∨ f = .IF_FINISH) :
    (∀ cmd_id : CmdId, cmd_id ≠ .COM_IF_STMT → cmd_id ≠ .COM_ELSEIF_STMT →
        cmd_id ≠ .COM_ELSE_STMT → cmd_id ≠ .COM_ENDIF_STMT →
        cmd_should_be_processed cmd_id s k = (false, k)) ∧
    cmd_should_be_processed .COM_IF_STMT s k = (false, k + 1) ∧
    cmd_should_be_processed .COM_ELSEIF_STMT s k = (decide (k = 0), k) ∧
    (0 < k →
      cmd_should_be_processed .COM_ENDIF_STMT s k = (false, k - 1) ∧
      cmd_should_be_processed .COM_ELSE_STMT s k = (false, k)) ∧
    (k = 0 →
      cmd_should_be_processed .COM_ENDIF_STMT s k = (true, k) ∧
      cmd_should_be_processed .COM_ELSE_STMT s k = (true, k)) ∧
    (∀ (s0 : IfStack) (k0 : Nat) (cmd_id : CmdId),
      cmd_id ≠ .COM_IF_STMT → cmd_id ≠ .COM_ELSEIF_STMT →
      cmd_id ≠ .COM_ELSE_STMT → cmd_id ≠ .COM_ENDIF_STMT →
      (cmd_should_be_processed cmd_id
          ((cmds_scoped_endif (cmds_scoped_if true (cmds_scoped_if false s0))).2)
          k0).1 = false ∧
      (cmds_scoped_endif
          ((cmds_scoped_endif
            (cmds_scoped_if true (cmds_scoped_if false s0))).2)).2 = s0) := by
  obtain ⟨t, rfl⟩ : ∃ t, s = f :: t := by
    cases s with
    | nil => simp at hd
    | cons a t => exact ⟨t, by simpa using congrArg (fun o => o.getD f) hd⟩
  constructor
  · intro cmd_id h1 h2 h3 h4
    rcases hf with rfl | rfl | rfl <;>
      simp [cmd_should_be_processed, is_at_scope_bottom, int_stack_top_is,
        h1, h2, h3, h4]
  refine ⟨?_, ?_, ?_, ?_, ?_⟩
  · rcases hf with rfl | rfl | rfl <;>
      simp [cmd_should_be_processed, is_at_scope_bottom, int_stack_top_is]
  · rcases hf with rfl | rfl | rfl <;>
      simp [cmd_should_be_processed, is_at_scope_bottom, int_stack_top_is]
  · intro hk
    rcases hf with rfl | rfl | rfl <;>
      simp [cmd_should_be_processed, is_at_scope_bottom, int_stack_top_is, hk]
  · intro hk
    subst hk
    rcases hf with rfl | rfl | rfl <;>
      simp [cmd_should_be_processed, is_at_scope_bottom, int_stack_top_is]
  · intro s0 k0 cmd_id h1 h2 h3 h4
    simp [cmds_scoped_if, cmds_scoped_endif, cmd_should_be_processed,
      is_at_scope_bottom, int_stack_top_is, h1, h2, h3, h4]

/-- Witness for C2_theorem on the stack `[IF_BEFORE_MATCH]` with nested
counter 2: a nested `if` is suppressed and increments the counter, an
ordinary command is suppressed, and the concrete
`ifStart(false); ifStart(true); endIf()` scenario suppresses ordinary
commands and the outer `endIf()` empties the stack. -/
theorem C2_witness :
    cmd_should_be_processed .COM_IF_STMT [.IF_BEFORE_MATCH] 2 = (false, 3) ∧
    cmd_should_be_processed (.other 0) [.IF_BEFORE_MATCH] 2 = (false, 2) ∧
    (cmd_should_be_processed (.other 0)
        ((cmds_scoped_endif (cmds_scoped_if true (cmds_scoped_if false []))).2)
        0).1 = false ∧
    (cmds_scoped_endif
        ((cmds_scoped_endif
          (cmds_scoped_if true (cmds_scoped_if false []))).2)).2 = [] := by
  have h := C2_theorem [.IF_BEFORE_MATCH] .IF_BEFORE_MATCH 2 rfl (Or.inl rfl)
  have hs := h.2.2.2.2.2 [] 0 (.other 0)
    (by decide) (by decide) (by decide) (by decide)
  exact ⟨h.2.1, h.1 (.other 0) (by decide) (by decide) (by decide) (by decide),
    hs.1, hs.2⟩

/-- Helper: popping the sequence on a stack whose prefix above the nearest
guard contains no guard removes exactly that prefix and the guard. -/
theorem int_stack_pop_seq_append (pre post : IfStack)
    (h : ∀ f ∈ pre, f ≠ IfFrame.IF_SCOPE_GUARD) :
    int_stack_pop_seq (pre ++ .IF_SCOPE_GUARD :: post) .IF_SCOPE_GUARD
      = post := by
  induction pre with
  | nil => simp [int_stack_pop_seq, List.dropWhile]
  | cons a l ih =>
    have ha : a ≠ IfFrame.IF_SCOPE_GUARD := h a (List.mem_cons_self a l)
    have ih2 := ih (fun f hf => h f (List.mem_cons_of_mem a hf))
    simpa [int_stack_pop_seq, List.dropWhile, ha] using ih2

/-- Claim C3: `commands_scope_finish` errors (reporting the missing endif)
exactly when a conditional frame other than a guard is on top; in that
case the stack is unwound down to (and through) the nearest scope guard;
when the top is a guard it is popped and the call succeeds. -/
theorem C3_theorem (s : IfStack) :
    ((commands_scope_finish s).1 = 1 ↔
      ∃ f, s.head? = some f ∧ f ≠ .IF_SCOPE_GUARD) ∧
    (∀ pre post, pre ≠ [] → (∀ f ∈ pre, f ≠ IfFrame.IF_SCOPE_GUARD) →
      s = pre ++ .IF_SCOPE_GUARD :: post →
      commands_scope_finish s = (1, post)) ∧
    (s.head? = some .IF_SCOPE_GUARD →
      commands_scope_finish s = (0, s.tail)) := by
  refine ⟨?_, ?_, ?_⟩
  · cases s with
    | nil => simp [commands_scope_finish, is_at_scope_bottom]
    | cons a t =>
      by_cases ha : a = IfFrame.IF_SCOPE_GUARD
      · subst ha
        simp [commands_scope_finish, is_at_scope_bottom, int_stack_top_is]
      · simp [commands_scope_finish, is_at_scope_bottom, int_stack_top_is, ha]
  · rintro pre post hne hpre rfl
    cases pre with
    | nil => exact absurd rfl hne
    | cons a l =>
      have ha : a ≠ IfFrame.IF_SCOPE_GUARD := hpre a (List.mem_cons_self a l)
      have hseq := int_stack_pop_seq_append (a :: l) post hpre
      simp [commands_scope_finish, is_at_scope_bottom, int_stack_top_is, ha]
      exact hseq
  · intro hd
    cases s with
    | nil => simp at hd
    | cons a t =>
      have : a = IfFrame.IF_SCOPE_GUARD := by simpa using hd
      subst this
      simp [commands_scope_finish, is_at_scope_bottom, int_stack_top_is]

/-- Witness for C3_theorem: with one open conditional frame above the
guard, `commands_scope_finish` errors and unwinds to below the guard; with
the guard on top it pops the guard successfully. -/
theorem C3_witness :
    commands_scope_finish [.IF_BEFORE_MATCH, .IF_SCOPE_GUARD] = (1, []) ∧
    commands_scope_finish [.IF_SCOPE_GUARD, .IF_MATCH] = (0, [.IF_MATCH]) := by
  refine ⟨(C3_theorem [.IF_BEFORE_MATCH, .IF_SCOPE_GUARD]).2.1
    [.IF_BEFORE_MATCH] [] (by decide) (by decide) rfl, ?_⟩
  exact (C3_theorem [.IF_SCOPE_GUARD, .IF_MATCH]).2.2 rfl

/-- Claim C7: `cmds_scoped_elseif` and `cmds_scoped_else` error exactly at
the scope bottom (empty stack or guard on top) or when the top frame is
`IF_ELSE` or `IF_FINISH`; otherwise they succeed, `elseif` turning a
`IF_BEFORE_MATCH` top into `IF_MATCH` when the condition holds (leaving it
`IF_BEFORE_MATCH` otherwise) and any other valid top into
`IF_AFTER_MATCH`, `else` turning `IF_BEFORE_MATCH` into `IF_ELSE` and any
other valid top into `IF_FINISH`. -/
theorem C7_theorem (s : IfStack) (cond : Bool) :
    ((cmds_scoped_elseif cond s).1 = 1 ↔
      is_at_scope_bottom s = true ∨ s.head? = some .IF_ELSE
        ∨ s.head? = some .IF_FINISH) ∧
    ((cmds_scoped_else s).1 = 1 ↔
      is_at_scope_bottom s = true ∨ s.head? = some .IF_ELSE
        ∨ s.head? = some .IF_FINISH) ∧
    (∀ below, s = .IF_BEFORE_MATCH :: below →
      cmds_scoped_elseif cond s
          = (0, (if cond then IfFrame.IF_MATCH else IfFrame.IF_BEFORE_MATCH)
                :: below) ∧
      cmds_scoped_else s = (0, .IF_ELSE :: below)) ∧
    (∀ f below, s = f :: below → f = .IF_MATCH ∨ f = .IF_AFTER_MATCH →
      cmds_scoped_elseif cond s = (0, .IF_AFTER_MATCH :: below) ∧
      cmds_scoped_else s = (0, .IF_FINISH :: below)) := by
  refine ⟨?_, ?_, ?_, ?_⟩
  · cases s with
    | nil => simp [cmds_scoped_elseif, is_at_scope_bottom]
    | cons a t =>
      cases a <;>
        simp [cmds_scoped_elseif, is_at_scope_bottom, int_stack_top_is]
  · cases s with
    | nil => simp [cmds_scoped_else, is_at_scope_bottom]
    | cons a t =>
      cases a <;>
        simp [cmds_scoped_else, is_at_scope_bottom, int_stack_top_is]
  · rintro below rfl
    constructor <;>
      simp [cmds_scoped_elseif, cmds_scoped_else, is_at_scope_bottom,
        int_stack_top_is]
  · rintro f below rfl hf
    rcases hf with rfl | rfl <;> constructor <;>
      simp [cmds_scoped_elseif, cmds_scoped_else, is_at_scope_bottom,
        int_stack_top_is]

/-- Witness for C7_theorem: a true `elseif` on a `IF_BEFORE_MATCH` top
yields `IF_MATCH`; an `else` after an `else` (top `IF_ELSE`) errors. -/
theorem C7_witness :
    cmds_scoped_elseif true [.IF_BEFORE_MATCH, .IF_SCOPE_GUARD]
      = (0, [.IF_MATCH, .IF_SCOPE_GUARD]) ∧
    (cmds_scoped_else [.IF_ELSE, .IF_SCOPE_GUARD]).1 = 1 := by
  constructor
  · exact ((C7_theorem [.IF_BEFORE_MATCH, .IF_SCOPE_GUARD] true).2.2.1
      [.IF_SCOPE_GUARD] rfl).1
  · exact ((C7_theorem [.IF_ELSE, .IF_SCOPE_GUARD] true).2.1).2
      (Or.inr (Or.inl rfl))

/-- Counterexample to claim C4 as stated: in `cmd1 a|b` the `|` is
unescaped and lies outside any quotes, yet the splitter does not split
there — the classifier reports the position as inside an argument (a
separator has been crossed and the cursor is mid-token), so the whole line
stays one sub-command. -/
theorem C4_counterexample :
    break_cmdline regularModel ("cmd1 a|b".toList)
      = ["cmd1 a|b".toList] ∧
    break_cmdline regularModel ("cmd1 a|b".toList)
      ≠ ["cmd1 a".toList, "b".toList] := by
  decide

/-- Claim C4 (amended): for a `CAT_REGULAR` sub-command the splitter
splits at an unescaped `|` at which the quoting classifier reports the
position as out of any argument (a `|` inside an unquoted argument does
not split), the pair `\|` is collapsed to a literal `|` with no split, and
every other backslash pair is copied through verbatim — concretely,
`cmd1|cmd2` splits into two commands, `cmd1\|cmd2` stays one command with
a literal bar, `cmd1\z|cmd2` keeps the `\z` pair and splits at the bar,
`cmd1 'a|b'` protects the quoted bar, and `cmd1 a|b` stays one command. -/
theorem C4_theorem (c : Char) (hc : c ≠ '|') :
    break_cmdline regularModel ("cmd1|cmd2".toList)
      = ["cmd1".toList, "cmd2".toList] ∧
    break_cmdline regularModel ("cmd1\\|cmd2".toList)
      = ["cmd1|cmd2".toList] ∧
    break_cmdline regularModel ("cmd1\\z|cmd2".toList)
      = ["cmd1\\z".toList, "cmd2".toList] ∧
    break_cmdline regularModel ("cmd1 'a|b'|x".toList)
      = ["cmd1 'a|b'".toList, "x".toList] ∧
    break_cmdline regularModel ("cmd1 a|b".toList)
      = ["cmd1 a|b".toList] ∧
    (∀ (M : CmdsModel) (fuel : Nat) (cur gap t : List Char)
        (acc : List (List Char)),
      brk_loop M (fuel + 1) .CAT_REGULAR cur gap ('\\' :: '|' :: t) acc
        = brk_loop M fuel .CAT_REGULAR (cur ++ ['|'])
            ((gap ++ ['\\', '|']).drop 1) t acc) ∧
    (∀ (M : CmdsModel) (fuel : Nat) (cur gap t : List Char)
        (acc : List (List Char)),
      brk_loop M (fuel + 1) .CAT_REGULAR cur gap ('\\' :: c :: t) acc
        = brk_loop M fuel .CAT_REGULAR (cur ++ ['\\', c])
            ((gap ++ ['\\', c]).drop 2) t acc) := by
  refine ⟨by decide, by decide, by decide, by decide, by decide, ?_, ?_⟩
  · intro M fuel cur gap t acc
    simp [brk_loop]
  · intro M fuel cur gap t acc
    simp [brk_loop, hc]

/-- Witness for C4_theorem at `c = 'z'`: a `\z` pair is copied through
verbatim by the splitter's loop. -/
theorem C4_witness :
    brk_loop regularModel 1 .CAT_REGULAR [] [] ('\\' :: 'z' :: []) []
      = brk_loop regularModel 0 .CAT_REGULAR ['\\', 'z'] [] [] [] := by
  have h := ( C4_theorem 'z' (by decide)).2.2.2.2.2.2
  simpa using h regularModel 0 [] [] [] []

/-- Counterexample to claim C5 as stated: in `echo 1||2|cmd2` no candidate
split ever arises (every `|` sits inside the argument `1||2|cmd2`, never
at an out-of-argument position), so the line stays a single sub-command
instead of splitting into `echo 1||2` and `cmd2`. -/
theorem C5_counterexample :
    break_cmdline echoModel ("echo 1||2|cmd2".toList)
      = ["echo 1||2|cmd2".toList] ∧
    break_cmdline echoModel ("echo 1||2|cmd2".toList)
      ≠ ["echo 1||2".toList, "cmd2".toList] := by
  decide

/-- Claim C5 (amended): for a `CAT_EXPR` sub-command, when the splitter
finds a candidate split at an out-of-argument `|` and the processed cursor
sees `||` not immediately followed by a third `|`, the whole `||...` run
up to the next `|` is treated as literal content and the split search
advances past it, while a candidate split at a lone `|` still splits —
concretely `echo 1 ||2|cmd2` (candidate split after the whitespace) yields
`echo 1 ||2` and `cmd2`, and `echo 1 |cmd2` yields `echo 1 ` and
`cmd2`. -/
theorem C5_theorem (c : Char) (hc : c ≠ '|') :
    break_cmdline echoModel ("echo 1 ||2|cmd2".toList)
      = ["echo 1 ||2".toList, "cmd2".toList] ∧
    break_cmdline echoModel ("echo 1 |cmd2".toList)
      = ["echo 1 ".toList, "cmd2".toList] ∧
    (∀ (fuel : Nat) (cur t : List Char),
      expr_lookahead (fuel + 1) cur ('|' :: '|' :: c :: t)
        = expr_lookahead fuel
            (cur ++ '|' :: '|' :: (c :: t).takeWhile (fun x => x ≠ '|'))
            ((c :: t).dropWhile (fun x => x ≠ '|'))) ∧
    (∀ (fuel : Nat) (cur t : List Char),
      expr_lookahead (fuel + 1) cur ('|' :: c :: t) = (cur, '|' :: c :: t)) := by
  refine ⟨by decide, by decide, ?_, ?_⟩
  · intro fuel cur t
    simp [expr_lookahead, until_first, hc]
  · intro fuel cur t
    simp [expr_lookahead, hc]

/-- Witness for C5_theorem at `c = '2'`: the look-ahead consumes a `||2`
run up to the next bar. -/
theorem C5_witness :
    expr_lookahead 2 [] ('|' :: '|' :: '2' :: '|' :: 'x' :: [])
      = expr_lookahead 1 ['|', '|', '2'] ('|' :: 'x' :: []) ∧
    expr_lookahead 1 [] ('|' :: '2' :: []) = ([], ['|', '2']) := by
  constructor
  · simpa using ( C5_theorem '2' (by decide)).2.2.1 1 [] ('|' :: 'x' :: [])
  · simpa using ( C5_theorem '2' (by decide)).2.2.2 0 [] []

/-- Helper: the `exec_commands` loop computes, from any starting
`save_msg`, the sign of the last non-zero status (keeping the start value
when every status is zero). -/
theorem exec_commands_loop_eq (exec : List Char → Int) (cmds : List (List Char)) :
    ∀ start : Int,
      exec_commands_loop exec cmds start =
        match (cmds.map exec |>.filter (fun v => v ≠ 0)).getLast? with
        | none => start
        | some v => if v < 0 then -1 else 1 := by
  induction cmds with
  | nil => intro start; simp [exec_commands_loop]
  | cons cmd cmds ih =>
    intro start
    have hstep : exec_commands_loop exec (cmd :: cmds) start
        = exec_commands_loop exec cmds
            (if exec cmd ≠ 0 then (if exec cmd < 0 then -1 else 1) else start) :=
      rfl
    rw [hstep, ih]
    by_cases h : exec cmd = 0
    · have hfil : ((cmd :: cmds).map exec).filter (fun v => v ≠ 0)
          = (cmds.map exec).filter (fun v => v ≠ 0) := by
        simp [List.filter_cons, h]
      rw [hfil]
      simp [h]
    · have hfil : ((cmd :: cmds).map exec).filter (fun v => v ≠ 0)
          = exec cmd :: (cmds.map exec).filter (fun v => v ≠ 0) := by
        simp [List.filter_cons, h]
      rw [hfil]
      rcases hrest : (cmds.map exec).filter (fun v => v ≠ 0) with _ | ⟨y, ys⟩
      · rw [hrest]
        simp [h]
      · rw [hrest, List.getLast?_cons_cons]
        cases hy : (y :: ys).getLast? with
        | none => exact absurd (List.getLast?_eq_none_iff.mp hy) (by simp)
        | some z => rfl

/-- Counterexample to claim C1 as stated: on the line `a|b`, sub-command
`a` errors (status -1) and the later sub-command `b` succeeds with a
message (status 3); the aggregate is 1, the message status, not the error
status -1 that a "worst status" aggregation would give. -/
theorem C1_counterexample :
    exec_status_model ("a".toList) < 0 ∧
    break_cmdline regularModel ("a|b".toList) = ["a".toList, "b".toList] ∧
    exec_commands regularModel exec_status_model ("a|b".toList) = 1 ∧
    exec_commands regularModel exec_status_model ("a|b".toList) ≠ -1 := by
  decide

/-- Claim C1 (amended): `exec_commands` executes every sub-command in
order, never stopping early, and returns 0 when every sub-command's status
is 0 and otherwise the sign normalization (-1 for error, 1 for
message-to-show) of the LAST sub-command with non-zero status — a later
non-zero status overwrites an earlier one, so an error does not dominate a
later message. -/
theorem C1_theorem (M : CmdsModel) (exec : List Char → Int)
    (cmdline : List Char) (cmds : List (List Char)) :
    exec_commands_loop exec cmds 0 = agg_save_msg (cmds.map exec) ∧
    exec_commands M exec cmdline
      = agg_save_msg ((break_cmdline M cmdline).map exec) := by
  constructor
  · rw [exec_commands_loop_eq]
    rfl
  · rw [exec_commands, exec_commands_loop_eq]
    rfl

/-- Helper: indexed access through `mapIdx`. -/
theorem getElem?_mapIdx {α : Type} (l : List α) (f : Nat → α → α) (i : Nat) :
    (l.mapIdx f)[i]? = (l[i]?).map (f i) := by
  by_cases h : i < l.length
  · have h' : i < (l.mapIdx f).length := by
      simpa [List.length_mapIdx] using h
    rw [List.getElem?_eq_getElem h', List.getElem?_eq_getElem h]
    simp [List.get_mapIdx l f i h h']
  · have h' : ¬ i < (l.mapIdx f).length := by
      simpa [List.length_mapIdx] using h
    rw [List.getElem?_eq_none (Nat.le_of_not_lt h'),
      List.getElem?_eq_none (Nat.le_of_not_lt h)]
    rfl

/-- Helper: the final marking step never changes the rows or the selection
counter. -/
theorem select_range_mark_dir (w : FileView) :
    (select_range_mark w).dir_entry = w.dir_entry ∧
    (select_range_mark w).selected_files = w.selected_files := by
  unfold select_range_mark
  split <;> exact ⟨rfl, rfl⟩

/-- Helper: after the marking step, the selection is empty or the view is
marked as not user-originated. -/
theorem select_range_mark_user (w : FileView) :
    (select_range_mark w).selected_files = 0 ∨
    (select_range_mark w).user_selection = 0 := by
  unfold select_range_mark
  split
  · exact Or.inr rfl
  · next h => exact Or.inl (by omega)

/-- Helper: a view with a non-empty selection is marked as not
user-originated by the final step. -/
theorem select_range_mark_user_pos (w : FileView)
    (h : w.selected_files > 0) :
    (select_range_mark w).user_selection = 0 := by
  unfold select_range_mark
  rw [if_pos h]

/-- Claim C8 (amended): with an explicit [begin,end] range the selection
is cleared and exactly the rows in the range are selected, the
parent-directory pseudo-entry being skipped unless begin = end; with no
range and nothing selected, an explicit end row (or, for commands other
than find/grep, the current row) is selected as exactly one row; whenever
`select_range` establishes a selection and it is non-empty, the view is
marked as not user-originated — but when no range is given and a
selection already exists, the view is returned untouched, keeping its
user-selection flag. -/
theorem C8_theorem (id : CmdId) (ci : cmd_info_t) (v : FileView) :
    (ci.begin > -1 →
      (∀ (i : Nat) (e : dir_entry_t), v.dir_entry[i]? = some e →
        (select_range id ci v).dir_entry[i]? = some
          (if ci.begin ≤ (i : Int) ∧ (i : Int) ≤ ci.«end»
              ∧ ¬(is_parent_dir e.name = true ∧ ci.begin ≠ ci.«end») then
            { e with selected := true }
          else { e with selected := false })) ∧
      ((select_range id ci v).selected_files = 0 ∨
        (select_range id ci v).user_selection = 0)) ∧
    (¬ ci.begin > -1 → v.selected_files = 0 → ci.«end» > -1 →
      ci.«end» < (v.dir_entry.length : Int) →
      (∀ (i : Nat) (e : dir_entry_t), v.dir_entry[i]? = some e →
        (select_range id ci v).dir_entry[i]? = some
          (if (i : Int) = ci.«end» then { e with selected := true }
           else { e with selected := false })) ∧
      (select_range id ci v).selected_files = 1 ∧
      (select_range id ci v).user_selection = 0) ∧
    (¬ ci.begin > -1 → v.selected_files = 0 → ¬ ci.«end» > -1 →
      id ≠ .COM_FIND → id ≠ .COM_GREP → v.list_pos < v.dir_entry.length →
      (∀ (i : Nat) (e : dir_entry_t), v.dir_entry[i]? = some e →
        (select_range id ci v).dir_entry[i]? = some
          (if i = v.list_pos then { e with selected := true }
           else { e with selected := false })) ∧
      (select_range id ci v).selected_files = 1 ∧
      (select_range id ci v).user_selection = 0) ∧
    (¬ ci.begin > -1 → v.selected_files ≠ 0 → select_range id ci v = v) := by
  refine ⟨?_, ?_, ?_, ?_⟩
  · intro hb
    constructor
    · intro i e he
      simp only [select_range, if_pos hb]
      rw [(select_range_mark_dir _).1]
      dsimp only
      rw [getElem?_mapIdx,
        show (clean_selected_files v).dir_entry
          = v.dir_entry.map (fun e => { e with selected := false }) from rfl,
        List.getElem?_map, he, Option.map_some']
      rfl
    · simp only [select_range, if_pos hb]
      exact select_range_mark_user _
  · intro hb hsel hend hlen
    refine ⟨?_, ?_, ?_⟩
    · intro i e he
      simp only [select_range, if_neg hb, if_pos hsel, if_pos hend]
      rw [(select_range_mark_dir _).1]
      dsimp only
      rw [getElem?_mapIdx,
        show (clean_selected_files v).dir_entry
          = v.dir_entry.map (fun e => { e with selected := false }) from rfl,
        List.getElem?_map, he, Option.map_some']
      rfl
    · simp only [select_range, if_neg hb, if_pos hsel, if_pos hend]
      rw [(select_range_mark_dir _).2]
      dsimp only
      rw [show (clean_selected_files v).dir_entry
          = v.dir_entry.map (fun e => { e with selected := false }) from rfl]
      rw [if_pos (by simpa using hlen)]
    · simp only [select_range, if_neg hb, if_pos hsel, if_pos hend]
      refine select_range_mark_user_pos _ ?_
      dsimp only
      rw [show (clean_selected_files v).dir_entry
          = v.dir_entry.map (fun e => { e with selected := false }) from rfl]
      rw [if_pos (by simpa using hlen)]
      omega
  · intro hb hsel hend hf hg hpos
    refine ⟨?_, ?_, ?_⟩
    · intro i e he
      simp only [select_range, if_neg hb, if_pos hsel, if_neg hend,
        if_pos (And.intro hf hg)]
      rw [(select_range_mark_dir _).1]
      dsimp only
      rw [getElem?_mapIdx,
        show (clean_selected_files v).dir_entry
          = v.dir_entry.map (fun e => { e with selected := false }) from rfl,
        List.getElem?_map, he, Option.map_some']
      rfl
    · simp only [select_range, if_neg hb, if_pos hsel, if_neg hend,
        if_pos (And.intro hf hg)]
      rw [(select_range_mark_dir _).2]
      dsimp only
      rw [show (clean_selected_files v).dir_entry
          = v.dir_entry.map (fun e => { e with selected := false }) from rfl]
      rw [if_pos (by simpa using hpos)]
    · simp only [select_range, if_neg hb, if_pos hsel, if_neg hend,
        if_pos (And.intro hf hg)]
      refine select_range_mark_user_pos _ ?_
      dsimp only
      rw [show (clean_selected_files v).dir_entry
          = v.dir_entry.map (fun e => { e with selected := false }) from rfl]
      rw [if_pos (by simpa using hpos)]
      omega
  · intro hb hsel
    simp only [select_range, if_neg hb, if_neg hsel]

/-- Counterexample to claim C8 as stated: with no range given and a
selection already present, `select_range` returns early — the resulting
selection is non-empty yet the view is NOT marked as not user-originated
(the user-selection flag stays 1). -/
theorem C8_counterexample :
    select_range (.other 0) { begin := -1, «end» := -1 } view_user_selected
      = view_user_selected ∧
    view_user_selected.selected_files > 0 ∧
    view_user_selected.user_selection ≠ 0 := by
  refine ⟨?_, by decide, by decide⟩
  simp [select_range, view_user_selected]

/-- Witness for C8_theorem: on a two-row unselected view, the single
end-row case selects exactly row 1, sets the counter to 1 and clears the
user-selection flag. -/
theorem C8_witness :
    (select_range (.other 0) { begin := -1, «end» := 1 }
        view_unselected).selected_files = 1 ∧
    (select_range (.other 0) { begin := -1, «end» := 1 }
        view_unselected).user_selection = 0 ∧
    (select_range (.other 0) { begin := -1, «end» := 1 }
        view_unselected).dir_entry[1]?
      = some { name := "f".toList, selected := true } := by
  have h := (C8_theorem (.other 0) { begin := -1, «end» := 1 }
      view_unselected).2.1 (by decide) (by decide) (by decide) (by decide)
  refine ⟨h.2.1, h.2.2, ?_⟩
  have h1 := h.1 1 { name := "f".toList, selected := false } (by decide)
  simpa using h1

/-- Helper: the `eval_arglist` loop refines the spec-side trace collector:
run with the same fuel and a non-empty accumulator, a collected trace
corresponds to the accumulator extended by a space-joined tail, and a
failure stops at the same position. -/
theorem eval_arglist_loop_spec (p : List Char → ParseOutcome) :
    ∀ (fuel : Nat) (args acc : List Char), acc ≠ [] →
      (∀ stop, eval_arglist_spec p fuel args = .error stop →
        eval_arglist_loop p fuel args (some acc) = .error stop) ∧
      (∀ forms, eval_arglist_spec p fuel args = .ok forms →
        eval_arglist_loop p fuel args (some acc)
          = .ok (some (if forms = [] then acc
                       else acc ++ ' ' :: join_spaced forms))) := by
  intro fuel
  induction fuel with
  | zero =>
    intro args acc hacc
    constructor
    · intro stop hstop
      cases hstop
      rfl
    · intro forms hforms
      cases hforms
  | succ fuel ih =>
    intro args acc hacc
    by_cases hargs : args = []
    · subst hargs
      constructor
      · intro stop hstop
        simp [eval_arglist_spec] at hstop
      · intro forms hforms
        simp only [eval_arglist_spec, if_pos rfl] at hforms
        cases hforms
        simp [eval_arglist_loop]
    · cases hp : p args with
      | err =>
        constructor
        · intro stop hstop
          simp only [eval_arglist_spec, if_neg hargs, hp] at hstop
          cases hstop
          simp [eval_arglist_loop, hargs, hp]
        · intro forms hforms
          simp only [eval_arglist_spec, if_neg hargs, hp] at hforms
          cases hforms
      | ok str rest =>
        have hacc2 : acc ++ ' ' :: str ≠ [] := by simp
        have ih2 := ih (skip_whitespace rest) (acc ++ ' ' :: str) hacc2
        have hloop : eval_arglist_loop p (fuel + 1) args (some acc)
            = eval_arglist_loop p fuel (skip_whitespace rest)
                (some (acc ++ ' ' :: str)) := by
          simp [eval_arglist_loop, hargs, hp, extend_eval_result, hacc]
        constructor
        · intro stop hstop
          simp only [eval_arglist_spec, if_neg hargs, hp] at hstop
          rw [hloop]
          rcases hspec : eval_arglist_spec p fuel (skip_whitespace rest) with s | fs
          · rw [hspec] at hstop
            cases hstop
            exact ih2.1 _ hspec
          · rw [hspec] at hstop
            cases hstop
        · intro forms hforms
          simp only [eval_arglist_spec, if_neg hargs, hp] at hforms
          rw [hloop]
          rcases hspec : eval_arglist_spec p fuel (skip_whitespace rest) with s | fs
          · rw [hspec] at hforms
            cases hforms
          · rw [hspec] at hforms
            cases hforms
            rw [ih2.2 fs hspec]
            rcases fs with _ | ⟨g, gs⟩
            · simp [join_spaced]
            · simp [join_spaced]
      | invalidWs str rest =>
        have hacc2 : acc ++ ' ' :: str ≠ [] := by simp
        have ih2 := ih (skip_whitespace rest) (acc ++ ' ' :: str) hacc2
        have hloop : eval_arglist_loop p (fuel + 1) args (some acc)
            = eval_arglist_loop p fuel (skip_whitespace rest)
                (some (acc ++ ' ' :: str)) := by
          simp [eval_arglist_loop, hargs, hp, extend_eval_result, hacc]
        constructor
        · intro stop hstop
          simp only [eval_arglist_spec, if_neg hargs, hp] at hstop
          rw [hloop]
          rcases hspec : eval_arglist_spec p fuel (skip_whitespace rest) with s | fs
          · rw [hspec] at hstop
            cases hstop
            exact ih2.1 _ hspec
          · rw [hspec] at hstop
            cases hstop
        · intro forms hforms
          simp only [eval_arglist_spec, if_neg hargs, hp] at hforms
          rw [hloop]
          rcases hspec : eval_arglist_spec p fuel (skip_whitespace rest) with s | fs
          · rw [hspec] at hforms
            cases hforms
          · rw [hspec] at hforms
            cases hforms
            rw [ih2.2 fs hspec]
            rcases fs with _ | ⟨g, gs⟩
            · simp [join_spaced]
            · simp [join_spaced]

/-- Helper: with a parser that always consumes at least one character,
fuel `length + 1` never runs out, and a spec-side failure always stops at
a non-empty position where the parser reports an outright error. -/
theorem eval_arglist_spec_err (p : List Char → ParseOutcome)
    (hprog : ∀ s str rest,
      p s = .ok str rest ∨ p s = .invalidWs str rest → rest.length < s.length) :
    ∀ (fuel : Nat) (args : List Char), args.length < fuel →
      ∀ stop, eval_arglist_spec p fuel args = .error stop →
        stop ≠ [] ∧ p stop = .err := by
  intro fuel
  induction fuel with
  | zero => intro args h; omega
  | succ fuel ih =>
    intro args hlen stop hstop
    by_cases hargs : args = []
    · subst hargs
      simp [eval_arglist_spec] at hstop
    · cases hp : p args with
      | err =>
        simp only [eval_arglist_spec, if_neg hargs, hp] at hstop
        cases hstop
        exact ⟨hargs, hp⟩
      | ok str rest =>
        simp only [eval_arglist_spec, if_neg hargs, hp] at hstop
        have hr : rest.length < args.length := hprog args str rest (Or.inl hp)
        have hskip : (skip_whitespace rest).length ≤ rest.length :=
          (List.dropWhile_sublist _).length_le
        rcases hspec : eval_arglist_spec p fuel (skip_whitespace rest)
            with s | fs
        · rw [hspec] at hstop
          cases hstop
          exact ih (skip_whitespace rest) (by omega) stop hspec
        · rw [hspec] at hstop
          cases hstop
      | invalidWs str rest =>
        simp only [eval_arglist_spec, if_neg hargs, hp] at hstop
        have hr : rest.length < args.length := hprog args str rest (Or.inr hp)
        have hskip : (skip_whitespace rest).length ≤ rest.length :=
          (List.dropWhile_sublist _).length_le
        rcases hspec : eval_arglist_spec p fuel (skip_whitespace rest)
            with s | fs
        · rw [hspec] at hstop
          cases hstop
          exact ih (skip_whitespace rest) (by omega) stop hspec
        · rw [hspec] at hstop
          cases hstop

/-- Claim C9: for a non-empty argument string (non-emptiness is the
contract's precondition) and a parser that consumes input, `eval_arglist`
returns the successive evaluated expressions' string forms joined by
exactly one space when the whole text is consumed (also accepting the
invalid-expression-after-whitespace parser outcome), and when the parser
fails outright before the text is exhausted it returns failure carrying
the stopping position (which is where the parser reported the error). -/
theorem C9_theorem (p : List Char → ParseOutcome) (args : List Char)
    (hne : args ≠ [])
    (hprog : ∀ s str rest,
      p s = .ok str rest ∨ p s = .invalidWs str rest → rest.length < s.length)
    (hstr : ∀ s str rest,
      p s = .ok str rest ∨ p s = .invalidWs str rest → str ≠ []) :
    (∀ stop, eval_arglist_spec p (args.length + 1) args = .error stop →
      eval_arglist p args = .error stop ∧ stop ≠ [] ∧ p stop = .err) ∧
    (∀ forms, eval_arglist_spec p (args.length + 1) args = .ok forms →
      eval_arglist p args = .ok (some (join_spaced forms))) := by
  cases hp : p args with
  | err =>
    constructor
    · intro stop hstop
      simp only [eval_arglist_spec, if_neg hne, hp] at hstop
      cases hstop
      refine ⟨?_, hne, hp⟩
      simp [eval_arglist, eval_arglist_loop, hne, hp]
    · intro forms hforms
      simp only [eval_arglist_spec, if_neg hne, hp] at hforms
      cases hforms
  | ok str rest =>
    have hstr2 : str ≠ [] := hstr args str rest (Or.inl hp)
    have hloop : eval_arglist p args
        = eval_arglist_loop p args.length (skip_whitespace rest) (some str) := by
      simp [eval_arglist, eval_arglist_loop, hne, hp, extend_eval_result]
    have hrel := eval_arglist_loop_spec p args.length (skip_whitespace rest)
      str hstr2
    have hr : rest.length < args.length := hprog args str rest (Or.inl hp)
    have hskip : (skip_whitespace rest).length ≤ rest.length :=
      (List.dropWhile_sublist _).length_le
    constructor
    · intro stop hstop
      simp only [eval_arglist_spec, if_neg hne, hp] at hstop
      rcases hspec : eval_arglist_spec p args.length (skip_whitespace rest)
          with s | fs
      · rw [hspec] at hstop
        cases hstop
        refine ⟨?_, eval_arglist_spec_err p hprog args.length
          (skip_whitespace rest) (by omega) stop hspec⟩
        rw [hloop]
        exact hrel.1 stop hspec
      · rw [hspec] at hstop
        cases hstop
    · intro forms hforms
      simp only [eval_arglist_spec, if_neg hne, hp] at hforms
      rcases hspec : eval_arglist_spec p args.length (skip_whitespace rest)
          with s | fs
      · rw [hspec] at hforms
        cases hforms
      · rw [hspec] at hforms
        cases hforms
        rw [hloop, hrel.2 fs hspec]
        rcases fs with _ | ⟨g, gs⟩
        · simp [join_spaced]
        · simp [join_spaced]
  | invalidWs str rest =>
    have hstr2 : str ≠ [] := hstr args str rest (Or.inr hp)
    have hloop : eval_arglist p args
        = eval_arglist_loop p args.length (skip_whitespace rest) (some str) := by
      simp [eval_arglist, eval_arglist_loop, hne, hp, extend_eval_result]
    have hrel := eval_arglist_loop_spec p args.length (skip_whitespace rest)
      str hstr2
    have hr : rest.length < args.length := hprog args str rest (Or.inr hp)
    have hskip : (skip_whitespace rest).length ≤ rest.length :=
      (List.dropWhile_sublist _).length_le
    constructor
    · intro stop hstop
      simp only [eval_arglist_spec, if_neg hne, hp] at hstop
      rcases hspec : eval_arglist_spec p args.length (skip_whitespace rest)
          with s | fs
      · rw [hspec] at hstop
        cases hstop
        refine ⟨?_, eval_arglist_spec_err p hprog args.length
          (skip_whitespace rest) (by omega) stop hspec⟩
        rw [hloop]
        exact hrel.1 stop hspec
      · rw [hspec] at hstop
        cases hstop
    · intro forms hforms
      simp only [eval_arglist_spec, if_neg hne, hp] at hforms
      rcases hspec : eval_arglist_spec p args.length (skip_whitespace rest)
          with s | fs
      · rw [hspec] at hforms
        cases hforms
      · rw [hspec] at hforms
        cases hforms
        rw [hloop, hrel.2 fs hspec]
        rcases fs with _ | ⟨g, gs⟩
        · simp [join_spaced]
        · simp [join_spaced]

/-- Witness for C9_theorem: with the self-evaluating digit parser,
`eval_arglist` on the non-empty input `1 2` evaluates both expressions
and joins their string forms with a single space. -/
theorem C9_witness :
    eval_arglist digit_parse ("1 2".toList)
      = .ok (some ("1 2".toList)) := by
  have hprog : ∀ s str rest,
      digit_parse s = .ok str rest ∨ digit_parse s = .invalidWs str rest →
      rest.length < s.length := by
    intro s str rest h
    rcases h with h | h
    · simp only [digit_parse] at h
      split at h
      · cases h
      · next htok =>
        cases h
        have h1 : 0 < (s.takeWhile (fun c => c.isDigit)).length :=
          List.length_pos.mpr htok
        have h2 : (s.takeWhile (fun c => c.isDigit)).length ≤ s.length :=
          (List.takeWhile_sublist _).length_le
        simp only [List.length_drop]
        omega
    · simp only [digit_parse] at h
      split at h <;> cases h
  have hstr : ∀ s str rest,
      digit_parse s = .ok str rest ∨ digit_parse s = .invalidWs str rest →
      str ≠ [] := by
    intro s str rest h
    rcases h with h | h
    · simp only [digit_parse] at h
      split at h
      · cases h
      · next htok => cases h; exact htok
    · simp only [digit_parse] at h
      split at h <;> cases h
  have h := (C9_theorem digit_parse ("1 2".toList) (by decide) hprog hstr).2
    ["1".toList, "2".toList] (by rfl)
  simpa [join_spaced] using h
